import Mathlib

/-!
Verification of the `database` component of NJR201-job-market-analysis.

This file gives a shallow embedding of the two cores of the repository:

* the job-ingestion transaction `add_job` from `job_actions.py`, and
* the schema-reconciliation pass `_sync_schema` (together with the declared
  table model `_define_tables`) from `init_db.py`,

and proves or refutes the specification claims about them.

Modelling decisions (documented once here, referenced below):

* Machine integers do not occur: row ids are auto-increment counters, modelled
  as `Nat`.
* A database state is a record of tables; each table is a list of rows in
  insertion order, plus the next auto-increment id.
* A `conn.execute` call either succeeds, or raises `IntegrityError`
  (when a declared uniqueness constraint is violated), or raises some other
  `SQLAlchemyError`.  Errors that do not follow from the constraints
  (a concurrent transaction winning a uniqueness race, a connection drop,
  a statement timeout) are modelled by a fault schedule `Faults` that may
  force an error at a given statement index; `none` at every index is the
  fault-free run.
* SQLAlchemy Core semantics of `with conn.begin():` — the transaction is
  committed when the block exits without a propagating exception and rolled
  back when an exception propagates out of the block.  A statement error on
  MySQL does not invalidate the surrounding transaction, so statements
  executed before the error keep their effect if the transaction later
  commits.  `add_job` catches `SQLAlchemyError` inside the block, so the
  block always exits normally and the transaction state reached so far is
  committed.
-/

namespace DBModel

/-- Job attributes passed to `add_job` as `job_details` (`job_actions.py`).
Only the columns that participate in constraints or control flow are carried;
`job_url` is the column with the `unique=True` constraint declared in
`init_db.py` line 90. -/
structure JobDetails where
  job_title : String
  company_name : String
  job_url : String
  platform : String
deriving Repr, DecidableEq

/-- One element of `categories_data` as consumed by `add_job`
(`job_actions.py` lines 65-90): the three columns used as the lookup key
plus the display-name columns inserted alongside them. -/
structure CatData where
  platform : String
  category_id : String
  category_name : String
  sub_category_id : String
  sub_category_name : String
deriving Repr, DecidableEq

/-- State of the five tables touched by ingestion.  Each table is a list of
rows in insertion order paired with its auto-increment id; association rows
are kept as the `(job_id, skill_id)` / `(job_id, category_id)` pairs, which
carry the pair-uniqueness constraints `uix_job_skill` / `uix_job_category`
(`init_db.py` lines 152, 159). -/
structure DBState where
  jobs : List (Nat × JobDetails)
  skills : List (Nat × String)
  categories : List (Nat × CatData)
  jobs_skills : List (Nat × Nat)
  jobs_categories : List (Nat × Nat)
  nextJobId : Nat
  nextSkillId : Nat
  nextCatId : Nat
deriving Repr, DecidableEq

/-- The two classes of database error distinguished by `add_job`:
`IntegrityError` (caught on the edge inserts, lines 59 and 98 of
`job_actions.py`) versus any other `SQLAlchemyError` (caught only by the
outer handler, line 109). -/
inductive DbErr where
  | integrity
  | other
deriving Repr, DecidableEq

/-- A fault schedule: statement index (0-based count of `conn.execute`
calls in one `add_job` invocation) to an optional forced error.  A forced
`integrity` fault models losing a uniqueness race to a concurrent
transaction; a forced `other` fault models a connection drop or timeout. -/
def Faults : Type := Nat → Option DbErr

/-- The fault-free schedule. -/
def noFaults : Faults := fun _ => none

/-- A schedule that forces error `e` at statement index `k` only. -/
def faultAt (k : Nat) (e : DbErr) : Faults :=
  fun c => if c == k then some e else none

/-- Result of a fragment of the ingestion body: the database state reached,
the number of executed statements, and either a value or a raised error. -/
inductive StepResult (α : Type) where
  | ok (s : DBState) (c : Nat) (a : α)
  | err (s : DBState) (c : Nat) (e : DbErr)

/-- Execute one statement: the fault schedule may force an error (no effect
on the state), otherwise the statement's own semantics `eff` applies. -/
def exec {α : Type} (f : Faults) (s : DBState) (c : Nat)
    (eff : DBState → Except DbErr (DBState × α)) : StepResult α :=
  match f c with
  | some e => .err s (c + 1) e
  | none =>
    match eff s with
    | .ok (s', a) => .ok s' (c + 1) a
    | .error e => .err s (c + 1) e

/-- Semantics of `db.jobs_table.insert().values(**job_details)`
(`job_actions.py` line 28): raises `IntegrityError` when a row with the same
`job_url` exists (unique constraint, `init_db.py` line 90), otherwise appends
the row and returns the generated id. -/
def insertJobEff (jd : JobDetails) (s : DBState) :
    Except DbErr (DBState × Nat) :=
  if s.jobs.any (fun r => r.2.job_url == jd.job_url) then
    .error .integrity
  else
    .ok ({ s with jobs := s.jobs ++ [(s.nextJobId, jd)],
                  nextJobId := s.nextJobId + 1 }, s.nextJobId)

/-- The skill lookup of `job_actions.py` lines 37-40: first row of
`SELECT id FROM skills WHERE name = skill_name`. -/
def lookupSkill (s : DBState) (n : String) : Option Nat :=
  (s.skills.find? (fun r => r.2 == n)).map (·.1)

/-- Semantics of the skill `SELECT` statement (a query has no state effect). -/
def selectSkillEff (n : String) (s : DBState) :
    Except DbErr (DBState × Option Nat) :=
  .ok (s, lookupSkill s n)

/-- Semantics of `db.skills_table.insert().values(name=skill_name)`
(`job_actions.py` lines 46-50): `skills.name` is unique
(`init_db.py` line 123). -/
def insertSkillEff (n : String) (s : DBState) :
    Except DbErr (DBState × Nat) :=
  if s.skills.any (fun r => r.2 == n) then
    .error .integrity
  else
    .ok ({ s with skills := s.skills ++ [(s.nextSkillId, n)],
                  nextSkillId := s.nextSkillId + 1 }, s.nextSkillId)

/-- Semantics of the `jobs_skills` edge insert (`job_actions.py` lines
55-58): the pair `(job_id, skill_id)` is unique (`uix_job_skill`). -/
def insertJobSkillEff (job_id skill_id : Nat) (s : DBState) :
    Except DbErr (DBState × Unit) :=
  if s.jobs_skills.any (fun p => p == (job_id, skill_id)) then
    .error .integrity
  else
    .ok ({ s with jobs_skills := s.jobs_skills ++ [(job_id, skill_id)] }, ())

/-- The category lookup predicate of `job_actions.py` lines 67-74: equality
on the three columns `platform`, `category_id`, `sub_category_id`. -/
def catKeyMatches (cd : CatData) (r : CatData) : Bool :=
  r.platform == cd.platform && r.category_id == cd.category_id
    && r.sub_category_id == cd.sub_category_id

/-- First row of the category `SELECT`, as an id. -/
def lookupCat (s : DBState) (cd : CatData) : Option Nat :=
  (s.categories.find? (fun r => catKeyMatches cd r.2)).map (·.1)

/-- Semantics of the category `SELECT` statement. -/
def selectCatEff (cd : CatData) (s : DBState) :
    Except DbErr (DBState × Option Nat) :=
  .ok (s, lookupCat s cd)

/-- Semantics of `db.categories_table.insert().values(**cat_data)`
(`job_actions.py` lines 81-85), with the composite natural key
`(platform, category_id, sub_category_id)` treated as the table's
uniqueness constraint, matching the key the ingestion code queries by. -/
def insertCatEff (cd : CatData) (s : DBState) :
    Except DbErr (DBState × Nat) :=
  if s.categories.any (fun r => catKeyMatches cd r.2) then
    .error .integrity
  else
    .ok ({ s with categories := s.categories ++ [(s.nextCatId, cd)],
                  nextCatId := s.nextCatId + 1 }, s.nextCatId)

/-- Semantics of the `jobs_categories` edge insert (`job_actions.py` lines
94-97): the pair `(job_id, category_id)` is unique (`uix_job_category`). -/
def insertJobCatEff (job_id category_id : Nat) (s : DBState) :
    Except DbErr (DBState × Unit) :=
  if s.jobs_categories.any (fun p => p == (job_id, category_id)) then
    .error .integrity
  else
    .ok ({ s with jobs_categories :=
                    s.jobs_categories ++ [(job_id, category_id)] }, ())

/-- One iteration of the skill loop of `add_job` (`job_actions.py` lines
35-63): select the skill by name; if absent, insert it; then insert the
`jobs_skills` edge, where an `IntegrityError` is caught and skipped
(lines 54-63) while any other error propagates. -/
def linkSkill (f : Faults) (s : DBState) (c : Nat) (job_id : Nat)
    (skill_name : String) : StepResult Unit :=
  match exec f s c (selectSkillEff skill_name) with
  | .err s c e => .err s c e
  | .ok s c found =>
    match (match found with
           | some skill_id => StepResult.ok s c skill_id
           | none => exec f s c (insertSkillEff skill_name)) with
    | .err s c e => .err s c e
    | .ok s c skill_id =>
      match exec f s c (insertJobSkillEff job_id skill_id) with
      | .ok s c _ => .ok s c ()
      | .err s c .integrity => .ok s c ()
      | .err s c .other => .err s c .other

/-- The `for skill_name in skills_names` loop. -/
def linkSkills (f : Faults) (s : DBState) (c : Nat) (job_id : Nat) :
    List String → StepResult Unit
  | [] => .ok s c ()
  | n :: rest =>
    match linkSkill f s c job_id n with
    | .ok s c _ => linkSkills f s c job_id rest
    | .err s c e => .err s c e

/-- One iteration of the category loop of `add_job` (`job_actions.py` lines
65-103): select by the composite key; if absent, insert the record; then
insert the `jobs_categories` edge, where an `IntegrityError` is caught and
skipped (lines 93-103) while any other error propagates. -/
def linkCat (f : Faults) (s : DBState) (c : Nat) (job_id : Nat)
    (cd : CatData) : StepResult Unit :=
  match exec f s c (selectCatEff cd) with
  | .err s c e => .err s c e
  | .ok s c found =>
    match (match found with
           | some category_id => StepResult.ok s c category_id
           | none => exec f s c (insertCatEff cd)) with
    | .err s c e => .err s c e
    | .ok s c category_id =>
      match exec f s c (insertJobCatEff job_id category_id) with
      | .ok s c _ => .ok s c ()
      | .err s c .integrity => .ok s c ()
      | .err s c .other => .err s c .other

/-- The `for cat_data in categories_data` loop. -/
def linkCats (f : Faults) (s : DBState) (c : Nat) (job_id : Nat) :
    List CatData → StepResult Unit
  | [] => .ok s c ()
  | cd :: rest =>
    match linkCat f s c job_id cd with
    | .ok s c _ => linkCats f s c job_id rest
    | .err s c e => .err s c e

/-- The `try:` body of `add_job` (`job_actions.py` lines 26-107): insert the
job, link every skill, link every category, return the job id. -/
def add_jobBody (f : Faults) (s : DBState) (jd : JobDetails)
    (sk : List String) (ct : List CatData) : StepResult Nat :=
  match exec f s 0 (insertJobEff jd) with
  | .err s c e => .err s c e
  | .ok s c job_id =>
    match linkSkills f s c job_id sk with
    | .err s c e => .err s c e
    | .ok s c _ =>
      match linkCats f s c job_id ct with
      | .err s c e => .err s c e
      | .ok s c _ => .ok s c job_id

/-- The whole `add_job` (`job_actions.py` lines 12-112), returning the
committed database state together with the Python return value
(`some job_id`, or `none` from the `except SQLAlchemyError` handler at
lines 109-112).  The handler catches the error inside the
`with conn.begin()` block and returns, so the block exits normally in
both cases and the transaction state reached at that point is committed
(see the module comment for the SQLAlchemy Core semantics). -/
def add_job (f : Faults) (s : DBState) (jd : JobDetails)
    (sk : List String) (ct : List CatData) : DBState × Option Nat :=
  match add_jobBody f s jd sk ct with
  | .ok s _ job_id => (s, some job_id)
  | .err s _ _ => (s, none)

/-! ## Schema reconciliation (`init_db.py`, `Database._sync_schema`)

`_sync_schema` first runs `metadata.create_all` (which creates any missing
table and is a no-op on existing ones) and then, for every table of the
declared model, introspects the live columns and executes, per declared
column, at most one `ALTER TABLE ... ADD COLUMN` or
`ALTER TABLE ... MODIFY COLUMN` statement.  The embedding below models the
part after `create_all`: every table exists and has a list of live columns. -/

/-- A live column as reported by the inspector (`init_db.py` lines 171-173):
its name, the string rendering of its reported type, and its nullability. -/
structure LiveCol where
  name : String
  typeStr : String
  nullable : Bool
deriving Repr, DecidableEq

/-- A declared column of the model (`init_db.py` lines 73-160), carrying the
string its type compiles to under the engine dialect and its nullability. -/
structure DeclaredCol where
  name : String
  compiledType : String
  nullable : Bool
deriving Repr, DecidableEq

/-- The two ALTER statements `_sync_schema` can emit for a table:
`ADD COLUMN` with the full compiled column definition (line 179) and
`MODIFY COLUMN` with the desired type plus nullability clause
(lines 207-212).  Both carry the full desired column definition. -/
inductive SchemaOp where
  | addColumn (table : String) (col : DeclaredCol)
  | modifyColumn (table : String) (col : DeclaredCol)
deriving Repr, DecidableEq

/-- The declared column an operation carries. -/
def SchemaOp.col : SchemaOp → DeclaredCol
  | .addColumn _ d => d
  | .modifyColumn _ d => d

/-- Lookup of a live column by name, modelling `col_name in db_columns` /
`db_columns[col_name]` over the introspected dict (lines 171-173). -/
def liveLookup (live : List LiveCol) (n : String) : Option LiveCol :=
  live.find? (fun l => l.name == n)

/-- Python `str.upper` on the ASCII type strings involved, written over the
string's character list so that it evaluates by kernel reduction
(`Char.toUpper` maps the lowercase ASCII letters and fixes the rest). -/
def strUpper (s : String) : String :=
  ⟨s.data.map Char.toUpper⟩

/-- The comparison of `init_db.py` lines 191-200: the live type string and
the compiled model type string are both uppercased before the equality
test, and the nullability flags are compared directly. -/
def colDiffers (d : DeclaredCol) (l : LiveCol) : Bool :=
  strUpper l.typeStr != strUpper d.compiledType || l.nullable != d.nullable

/-- Phase 1 of the per-table loop (`init_db.py` lines 176-183): for each
declared column, in declaration order, emit an `ADD COLUMN` when the name
is absent from the live columns. -/
def addLoop (t : String) (live : List LiveCol) :
    List DeclaredCol → List SchemaOp
  | [] => []
  | d :: rest =>
    if (liveLookup live d.name).isNone then
      .addColumn t d :: addLoop t live rest
    else
      addLoop t live rest

/-- Phase 2 of the per-table loop (`init_db.py` lines 185-213): for each
declared column, in declaration order, emit a `MODIFY COLUMN` when the
column is live and `colDiffers` holds.  The introspected dict is built once
before phase 1 and not refreshed, so columns added in phase 1 are not
re-examined here. -/
def modifyLoop (t : String) (live : List LiveCol) :
    List DeclaredCol → List SchemaOp
  | [] => []
  | d :: rest =>
    match liveLookup live d.name with
    | none => modifyLoop t live rest
    | some l =>
      if colDiffers d l then
        .modifyColumn t d :: modifyLoop t live rest
      else
        modifyLoop t live rest

/-- The ordered statements one reconciliation pass executes for one table:
all additions (declaration order), then all modifications (declaration
order). -/
def syncTable (t : String) (model : List DeclaredCol) (live : List LiveCol) :
    List SchemaOp :=
  addLoop t live model ++ modifyLoop t live model

/-- The live column a declared column converges to once added or modified:
the compiled type string becomes the reported type and the declared
nullability becomes the reported nullability. -/
def toLive (d : DeclaredCol) : LiveCol :=
  ⟨d.name, d.compiledType, d.nullable⟩

/-- Effect of one executed ALTER statement on the live columns of its table:
`ADD COLUMN` appends the new column, `MODIFY COLUMN` rewrites every live
column of that name to the desired definition.  Neither removes a column. -/
def applyOp (live : List LiveCol) : SchemaOp → List LiveCol
  | .addColumn _ d => live ++ [toLive d]
  | .modifyColumn _ d =>
    live.map (fun l => if l.name == d.name then toLive d else l)

/-- Effect of a statement sequence, first to last. -/
def applyOps (live : List LiveCol) (ops : List SchemaOp) : List LiveCol :=
  ops.foldl applyOp live

/-! ### The whole `_sync_schema` run over all tables, with faults

`_sync_schema` wraps the loop over all tables in a single `try` block and a
single `engine.begin()` scope (lines 167-218).  On any `SQLAlchemyError` the
loop stops where it is, the error is logged once, and the `raise` at line 218
re-raises it out of `_sync_schema`. -/

/-- One table's reconciliation input: its name, declared columns, and the
live columns the inspector reports for it. -/
structure TableSync where
  table : String
  model : List DeclaredCol
  live : List LiveCol
deriving Repr, DecidableEq

/-- The statement sequence a run executes over all tables, in table order. -/
def allOps (ts : List TableSync) : List SchemaOp :=
  ts.foldr (fun t acc => syncTable t.table t.model t.live ++ acc) []

/-- Outcome of one `_sync_schema` run: either every statement executed, or a
statement raised and the exception escaped `_sync_schema` (the `raise` at
line 218), with the statements executed before the failure recorded. -/
inductive RunOutcome where
  | ok (executed : List SchemaOp)
  | raised (executed : List SchemaOp) (failed : SchemaOp)
deriving Repr, DecidableEq

/-- Execute a statement sequence under a fault schedule starting at
statement index `c`: returns the statements executed before the first
fault and the faulted statement, if any. -/
def runOps (f : Faults) (c : Nat) :
    List SchemaOp → List SchemaOp × Option SchemaOp
  | [] => ([], none)
  | op :: rest =>
    match f c with
    | some _ => ([], some op)
    | none =>
      let (ex, fail) := runOps f (c + 1) rest
      (op :: ex, fail)

/-- One `_sync_schema` run over all tables under a fault schedule. -/
def syncSchemaRun (f : Faults) (ts : List TableSync) : RunOutcome :=
  match runOps f 0 (allOps ts) with
  | (ex, none) => .ok ex
  | (ex, some op) => .raised ex op

/-! ### The declared table model of `_define_tables` (`init_db.py`)

Compiled type strings are the MySQL dialect renderings of the SQLAlchemy
types used in `_define_tables`: `BigInteger` compiles to `BIGINT`,
`String(n)` to `VARCHAR(n)`, `Text` to `TEXT`, `Integer` to `INTEGER`,
`DateTime` to `DATETIME`.  A column is non-nullable when declared with
`nullable=False` or `primary_key=True`. -/

/-- Columns of the declared `jobs` table (`init_db.py` lines 74-94). -/
def jobsColumns : List DeclaredCol := [
  ⟨"id", "BIGINT", false⟩,
  ⟨"job_title", "VARCHAR(200)", false⟩,
  ⟨"company_name", "VARCHAR(200)", false⟩,
  ⟨"job_description", "TEXT", true⟩,
  ⟨"work_type", "VARCHAR(100)", true⟩,
  ⟨"required_skills", "TEXT", true⟩,
  ⟨"salary_min", "INTEGER", true⟩,
  ⟨"salary_max", "INTEGER", true⟩,
  ⟨"salary_type", "VARCHAR(20)", true⟩,
  ⟨"salary_text", "VARCHAR(100)", true⟩,
  ⟨"experience_text", "VARCHAR(100)", true⟩,
  ⟨"experience_min", "INTEGER", true⟩,
  ⟨"city", "VARCHAR(50)", true⟩,
  ⟨"district", "VARCHAR(50)", true⟩,
  ⟨"location", "VARCHAR(200)", true⟩,
  ⟨"job_url", "VARCHAR(500)", false⟩,
  ⟨"platform", "VARCHAR(100)", true⟩,
  ⟨"created_at", "DATETIME", true⟩,
  ⟨"updated_at", "DATETIME", true⟩]

/-- Columns of the declared `categories` table (`init_db.py` lines 96-101):
a surrogate id, a unique `name`, and the two timestamps.  The composite
columns `platform`, `category_id`, `sub_category_id` queried by the
category resolver in `job_actions.py` are not among them. -/
def categoriesColumns : List DeclaredCol := [
  ⟨"id", "BIGINT", false⟩,
  ⟨"name", "VARCHAR(200)", false⟩,
  ⟨"created_at", "DATETIME", true⟩,
  ⟨"updated_at", "DATETIME", true⟩]

/-- The three column names the category resolver of `add_job` filters on
(`job_actions.py` lines 67-74). -/
def categoryResolverKeyColumns : List String :=
  ["platform", "category_id", "sub_category_id"]

/-- The phase-2 test collapsed to one declared column: the column is live
and `colDiffers` holds for it. -/
def needsModify (live : List LiveCol) (d : DeclaredCol) : Bool :=
  match liveLookup live d.name with
  | none => false
  | some l => colDiffers d l

/-- Sequential application of the `MODIFY COLUMN` rewrites of a
declared-column list to one live column (used to reason about
`applyOps`). -/
def rewriteCols (ds : List DeclaredCol) (l : LiveCol) : LiveCol :=
  ds.foldl (fun l d => if l.name == d.name then toLive d else l) l

/-! ### Concrete instances used by witnesses and counterexamples -/

/-- The empty database, as after a fresh initialisation. -/
def emptyDB : DBState := ⟨[], [], [], [], [], 0, 0, 0⟩

/-- A first sample job record. -/
def exJob1 : JobDetails :=
  ⟨"Backend Engineer", "Acme", "https://x/1", "cakeresume"⟩

/-- A second sample job record with a different `job_url`. -/
def exJob2 : JobDetails :=
  ⟨"Data Engineer", "Acme", "https://x/2", "cakeresume"⟩

/-- A sample category record. -/
def exCat : CatData := ⟨"cakeresume", "tech", "Tech", "backend-dev", "Backend"⟩

/-- A database holding exactly the row of `exJob1`. -/
def oneJobDB : DBState := ⟨[(0, exJob1)], [], [], [], [], 1, 0, 0⟩

/-- A database holding exactly the row of `exCat`. -/
def oneCatDB : DBState := ⟨[], [], [(0, exCat)], [], [], 0, 0, 1⟩

/-- A declared column and a live column that differ only in the letter case
of the type string. -/
def caseDeclared : DeclaredCol := ⟨"job_title", "VARCHAR(200)", false⟩

/-- The live counterpart of `caseDeclared` with a lowercase type string. -/
def caseLive : LiveCol := ⟨"job_title", "varchar(200)", false⟩

/-- A live `jobs` table holding only two of the declared columns. -/
def liveJobsShort : List LiveCol :=
  [⟨"id", "BIGINT", false⟩, ⟨"job_title", "varchar(200)", false⟩]

/-- A first sample reconciliation input whose table `t1` needs one added
column. -/
def exT1 : TableSync := ⟨"t1", [⟨"a", "INTEGER", true⟩], []⟩

/-- A second sample reconciliation input whose table `t2` needs one added
column. -/
def exT2 : TableSync := ⟨"t2", [⟨"b", "INTEGER", true⟩], []⟩

/-! ## Lemmas about the lookups -/

theorem lookupSkill_mem {s : DBState} {n : String} {sid : Nat}
    (h : lookupSkill s n = some sid) : (sid, n) ∈ s.skills := by
  unfold lookupSkill at h
  cases hf : s.skills.find? (fun r => r.2 == n) with
  | none => rw [hf] at h; cases h
  | some r =>
    rw [hf] at h
    have hm := List.mem_of_find?_eq_some hf
    have hp := List.find?_some hf
    obtain ⟨a, b⟩ := r
    have h2 : b = n := by simpa using hp
    have h1 : a = sid := by simpa using h
    rw [← h1, ← h2]
    exact hm

theorem lookupSkill_eq_none {s : DBState} {n : String}
    (h : s.skills.any (fun r => r.2 == n) = false) :
    lookupSkill s n = none := by
  have hf : s.skills.find? (fun r => r.2 == n) = none :=
    List.find?_eq_none.mpr (fun x hx => by
      simpa using List.any_eq_false.mp h x hx)
  simp [lookupSkill, hf]

theorem lookupCat_eq_none {s : DBState} {cd : CatData}
    (h : s.categories.any (fun r => catKeyMatches cd r.2) = false) :
    lookupCat s cd = none := by
  have hf : s.categories.find? (fun r => catKeyMatches cd r.2) = none :=
    List.find?_eq_none.mpr (fun x hx => by
      simpa using List.any_eq_false.mp h x hx)
  simp [lookupCat, hf]

theorem add_job_dup_url_none (s : DBState) (jd : JobDetails)
    (sk : List String) (ct : List CatData)
    (h : s.jobs.any (fun r => r.2.job_url == jd.job_url) = true) :
    add_job noFaults s jd sk ct = (s, none) := by
  simp [add_job, add_jobBody, exec, noFaults, insertJobEff, h]

/-! ## Claim C1 -/

/-- C1, counterexample.  The claim says a duplicate `job_url` is surfaced to
the caller as a distinct `DuplicateJob` condition, distinguishable from a
generic ingestion error.  On the code, ingesting `exJob1` into a database
already holding its `job_url` and ingesting the fresh `exJob2` under a
generic database error both return the identical value `(oneJobDB, none)`:
the duplicate is reported exactly like a generic error (`job_actions.py`
lines 109-112 return `None` for every `SQLAlchemyError`). -/
theorem duplicate_url_indistinguishable :
    add_job noFaults oneJobDB exJob1 [] [] = (oneJobDB, none) ∧
    add_job (faultAt 0 DbErr.other) oneJobDB exJob2 [] [] = (oneJobDB, none) ∧
    oneJobDB.jobs.any (fun r => r.2.job_url == exJob1.job_url) = true ∧
    oneJobDB.jobs.any (fun r => r.2.job_url == exJob2.job_url) = false := by
  decide

/-- C1 as amended: when the job insert fails because a row with the same
`job_url` already exists, the ingestion aborts with no rows persisted (the
committed state is unchanged) and `add_job` returns `None` — the same
failure indicator as a generic ingestion error, with no distinct
`DuplicateJob` condition. -/
theorem duplicate_url_aborts_with_none (s : DBState) (jd : JobDetails)
    (sk : List String) (ct : List CatData)
    (h : s.jobs.any (fun r => r.2.job_url == jd.job_url) = true) :
    add_job noFaults s jd sk ct = (s, none) :=
  add_job_dup_url_none s jd sk ct h

/-- Witness for `duplicate_url_aborts_with_none` at a concrete input. -/
theorem duplicate_url_aborts_with_none_witness :
    add_job noFaults oneJobDB exJob1 ["Python"] [exCat] = (oneJobDB, none) :=
  duplicate_url_aborts_with_none oneJobDB exJob1 ["Python"] [exCat] (by decide)

/-! ## Claim C2 -/

/-- C2, evaluation at the failing input.  The claim (and the code's own
comments, `job_actions.py` lines 23-24 and 110-111) say an unexpected
database error at any step rolls back the whole transaction, so no rows
persist.  In fact the `except SQLAlchemyError` handler catches the error
inside the `with conn.begin()` block and returns `None`, so the block exits
without a propagating exception and the transaction commits everything done
so far.  Failing input: ingesting a fresh job with skills `A`, `B`, `C`
where the edge insert of the third skill (statement index 9) raises a
non-integrity `SQLAlchemyError`: the committed state keeps the job row, all
three skill rows and the first two edges. -/
theorem partial_commit_on_midway_error :
    add_job (faultAt 9 DbErr.other) emptyDB exJob1 ["A", "B", "C"] [] =
      (⟨[(0, exJob1)], [(0, "A"), (1, "B"), (2, "C")], [],
        [(0, 0), (0, 1)], [], 1, 3, 0⟩, none) ∧
    (add_job (faultAt 9 DbErr.other) emptyDB exJob1 ["A", "B", "C"] []).1
      ≠ emptyDB := by
  decide

/-! ## Claim C3 -/

/-- C3, counterexample.  The claim says a uniqueness violation on a
speculative resolver insert (a concurrent identical insert won the race) is
handled internally by one re-query and never fails the whole ingestion.  In
the code the skill insert (`job_actions.py` lines 46-50) and the category
insert (lines 81-85) have no surrounding `except IntegrityError`; only the
edge inserts do.  Concretely: the skill insert is statement index 2 (after
the job insert and the skill select); forcing an `IntegrityError` there —
the modelled race — makes the whole ingestion abort and return `None` to
the caller, with only the job row committed. -/
theorem resolver_race_fails_ingestion :
    add_job (faultAt 2 DbErr.integrity) emptyDB exJob1 ["Python"] [] =
      (⟨[(0, exJob1)], [], [], [], [], 1, 0, 0⟩, none) := by
  decide

/-- C3 as amended: a uniqueness violation on a resolver (skill or category)
insert is caught only by the outer generic handler, so the whole ingestion
aborts and `add_job` returns `None`; there is no internal re-query.  Only
an `IntegrityError` on the edge insert (statement index 3 in a one-skill
ingestion) is handled internally: it is skipped and the ingestion still
returns the job id (with no edge row written). -/
theorem resolver_race_aborts_but_edge_race_skipped (s : DBState)
    (jd : JobDetails) (n : String)
    (hurl : s.jobs.any (fun r => r.2.job_url == jd.job_url) = false)
    (hskill : s.skills.any (fun r => r.2 == n) = false) :
    add_job (faultAt 2 DbErr.integrity) s jd [n] [] =
      ({ s with jobs := s.jobs ++ [(s.nextJobId, jd)],
                nextJobId := s.nextJobId + 1 }, none) ∧
    add_job (faultAt 3 DbErr.integrity) s jd [n] [] =
      ({ s with jobs := s.jobs ++ [(s.nextJobId, jd)],
                skills := s.skills ++ [(s.nextSkillId, n)],
                nextJobId := s.nextJobId + 1,
                nextSkillId := s.nextSkillId + 1 }, some s.nextJobId) := by
  have hfind : lookupSkill
      { s with jobs := s.jobs ++ [(s.nextJobId, jd)],
               nextJobId := s.nextJobId + 1 } n = none :=
    lookupSkill_eq_none hskill
  constructor
  · simp [add_job, add_jobBody, exec, faultAt, insertJobEff, hurl,
      linkSkills, linkSkill, selectSkillEff, hfind]
  · simp [add_job, add_jobBody, exec, faultAt, insertJobEff, hurl,
      linkSkills, linkSkill, selectSkillEff, hfind, insertSkillEff, hskill,
      linkCats]

/-- Witness for `resolver_race_aborts_but_edge_race_skipped` at a concrete
input. -/
theorem resolver_race_aborts_but_edge_race_skipped_witness :
    add_job (faultAt 2 DbErr.integrity) emptyDB exJob1 ["Python"] [] =
      ({ emptyDB with jobs := emptyDB.jobs ++ [(emptyDB.nextJobId, exJob1)],
                      nextJobId := emptyDB.nextJobId + 1 }, none) ∧
    add_job (faultAt 3 DbErr.integrity) emptyDB exJob1 ["Python"] [] =
      ({ emptyDB with
          jobs := emptyDB.jobs ++ [(emptyDB.nextJobId, exJob1)],
          skills := emptyDB.skills ++ [(emptyDB.nextSkillId, "Python")],
          nextJobId := emptyDB.nextJobId + 1,
          nextSkillId := emptyDB.nextSkillId + 1 }, some emptyDB.nextJobId) :=
  resolver_race_aborts_but_edge_race_skipped emptyDB exJob1 "Python"
    (by decide) (by decide)

/-! ## Claim C9 -/

/-- C9: an ingestion call with an empty skills list and an empty categories
list whose job insert succeeds inserts exactly one `jobs` row, writes
nothing to `skills`, `categories`, `jobs_skills` or `jobs_categories`, and
returns the generated job id. -/
theorem empty_lists_insert_job_only (s : DBState) (jd : JobDetails)
    (h : s.jobs.any (fun r => r.2.job_url == jd.job_url) = false) :
    add_job noFaults s jd [] [] =
      ({ s with jobs := s.jobs ++ [(s.nextJobId, jd)],
                nextJobId := s.nextJobId + 1 }, some s.nextJobId) := by
  simp [add_job, add_jobBody, exec, noFaults, insertJobEff, h, linkSkills,
    linkCats]

/-- Witness for `empty_lists_insert_job_only` at a concrete input. -/
theorem empty_lists_insert_job_only_witness :
    add_job noFaults emptyDB exJob1 [] [] =
      ({ emptyDB with jobs := emptyDB.jobs ++ [(emptyDB.nextJobId, exJob1)],
                      nextJobId := emptyDB.nextJobId + 1 },
        some emptyDB.nextJobId) :=
  empty_lists_insert_job_only emptyDB exJob1 (by decide)

/-! ## Behaviour of one category-loop iteration -/

theorem linkCat_noFaults_found (s : DBState) (c j i : Nat) (cd : CatData)
    (h : lookupCat s cd = some i) :
    ∃ s' c', linkCat noFaults s c j cd = .ok s' c' () ∧
      s'.jobs = s.jobs ∧ s'.skills = s.skills ∧
      s'.jobs_skills = s.jobs_skills ∧ s'.categories = s.categories ∧
      s'.nextJobId = s.nextJobId ∧ s'.nextSkillId = s.nextSkillId ∧
      s'.nextCatId = s.nextCatId ∧ (j, i) ∈ s'.jobs_categories := by
  cases he : s.jobs_categories.any (fun p => p == (j, i)) with
  | true =>
    refine ⟨s, c + 2, ?_, rfl, rfl, rfl, rfl, rfl, rfl, rfl, ?_⟩
    · simp [linkCat, exec, noFaults, selectCatEff, h, insertJobCatEff, he]
    · obtain ⟨p, hp, hpe⟩ := List.any_eq_true.mp he
      have hpp : p = (j, i) := by simpa using hpe
      rwa [hpp] at hp
  | false =>
    refine ⟨{ s with jobs_categories := s.jobs_categories ++ [(j, i)] },
      c + 2, ?_, rfl, rfl, rfl, rfl, rfl, rfl, rfl, ?_⟩
    · simp [linkCat, exec, noFaults, selectCatEff, h, insertJobCatEff, he]
    · exact List.mem_append_right _ (by simp)

theorem linkCat_noFaults_notFound (s : DBState) (c j : Nat) (cd : CatData)
    (h : lookupCat s cd = none) :
    ∃ s' c', linkCat noFaults s c j cd = .ok s' c' () ∧
      s'.jobs = s.jobs ∧ s'.skills = s.skills ∧
      s'.jobs_skills = s.jobs_skills ∧
      s'.categories = s.categories ++ [(s.nextCatId, cd)] ∧
      s'.nextJobId = s.nextJobId ∧ s'.nextSkillId = s.nextSkillId ∧
      s'.nextCatId = s.nextCatId + 1 ∧
      (j, s.nextCatId) ∈ s'.jobs_categories := by
  have hany : s.categories.any (fun r => catKeyMatches cd r.2) = false := by
    rw [List.any_eq_false]
    intro x hx
    intro hxm
    have hf : s.categories.find? (fun r => catKeyMatches cd r.2) = none := by
      unfold lookupCat at h
      cases hf' : s.categories.find? (fun r => catKeyMatches cd r.2) with
      | none => rfl
      | some r => rw [hf'] at h; cases h
    exact absurd hxm (by simpa using List.find?_eq_none.mp hf x hx)
  cases he : s.jobs_categories.any (fun p => p == (j, s.nextCatId)) with
  | true =>
    refine ⟨{ s with categories := s.categories ++ [(s.nextCatId, cd)],
                     nextCatId := s.nextCatId + 1 }, c + 3, ?_, rfl, rfl,
      rfl, rfl, rfl, rfl, rfl, ?_⟩
    · simp [linkCat, exec, noFaults, selectCatEff, h, insertCatEff, hany,
        insertJobCatEff, he]
    · obtain ⟨p, hp, hpe⟩ := List.any_eq_true.mp he
      have hpp : p = (j, s.nextCatId) := by simpa using hpe
      rwa [hpp] at hp
  | false =>
    refine ⟨{ s with categories := s.categories ++ [(s.nextCatId, cd)],
                     jobs_categories := s.jobs_categories ++ [(j, s.nextCatId)],
                     nextCatId := s.nextCatId + 1 }, c + 3, ?_, rfl, rfl,
      rfl, rfl, rfl, rfl, rfl, ?_⟩
    · simp [linkCat, exec, noFaults, selectCatEff, h, insertCatEff, hany,
        insertJobCatEff, he]
    · exact List.mem_append_right _ (by simp)

/-! ## Claim C5 -/

/-- C5, counterexample.  The claim says category resolution queries by
exact equality on all three composite natural-key columns
`(platform, category_id, sub_category_id)` *of the declared categories
table*.  The resolver (`job_actions.py` lines 67-74) does filter on those
three columns, but none of them is a column of the `categories` table
declared in `init_db.py` lines 96-101, which declares only
`id`, `name`, `created_at`, `updated_at`. -/
theorem category_key_columns_not_declared :
    categoryResolverKeyColumns = ["platform", "category_id", "sub_category_id"] ∧
    (categoriesColumns.map (fun d => d.name)) =
      ["id", "name", "created_at", "updated_at"] ∧
    ∀ k ∈ categoryResolverKeyColumns,
      k ∉ categoriesColumns.map (fun d => d.name) := by
  decide

/-- C5 as amended: the category resolver queries by exact equality on the
three composite key columns `(platform, category_id, sub_category_id)`,
returning the existing row's id if found (the row set is unchanged and the
edge targets that id) and otherwise inserting the record and using the new
id — but those key columns are absent from the `categories` table declared
in `init_db.py`, whose columns are `id`, `name`, `created_at`,
`updated_at`; the two sources disagree on the schema of `categories`. -/
theorem category_resolver_get_or_create :
    (∀ (s : DBState) (c j i : Nat) (cd : CatData), lookupCat s cd = some i →
      ∃ s' c', linkCat noFaults s c j cd = .ok s' c' () ∧
        s'.categories = s.categories ∧ (j, i) ∈ s'.jobs_categories) ∧
    (∀ (s : DBState) (c j : Nat) (cd : CatData), lookupCat s cd = none →
      ∃ s' c', linkCat noFaults s c j cd = .ok s' c' () ∧
        s'.categories = s.categories ++ [(s.nextCatId, cd)] ∧
        (j, s.nextCatId) ∈ s'.jobs_categories) ∧
    (∀ k ∈ categoryResolverKeyColumns,
      k ∉ categoriesColumns.map (fun d => d.name)) := by
  refine ⟨?_, ?_, by decide⟩
  · intro s c j i cd h
    obtain ⟨s', c', heq, _, _, _, hcats, _, _, _, hmem⟩ :=
      linkCat_noFaults_found s c j i cd h
    exact ⟨s', c', heq, hcats, hmem⟩
  · intro s c j cd h
    obtain ⟨s', c', heq, _, _, _, hcats, _, _, _, hmem⟩ :=
      linkCat_noFaults_notFound s c j cd h
    exact ⟨s', c', heq, hcats, hmem⟩

/-- Witness for `category_resolver_get_or_create`: the found case at a
concrete database holding the sample category with id 0. -/
theorem category_resolver_get_or_create_witness :
    ∃ s' c', linkCat noFaults oneCatDB 0 5 exCat = .ok s' c' () ∧
      s'.categories = oneCatDB.categories ∧ (5, 0) ∈ s'.jobs_categories :=
  category_resolver_get_or_create.1 oneCatDB 0 5 0 exCat (by decide)

/-! ## Behaviour of the skill loop -/

theorem linkSkill_noFaults_ok (s : DBState) (c j : Nat) (n : String) :
    ∃ s' c', linkSkill noFaults s c j n = .ok s' c' () ∧
      s'.jobs = s.jobs ∧ s'.categories = s.categories ∧
      s'.jobs_categories = s.jobs_categories ∧
      s'.nextJobId = s.nextJobId ∧ s'.nextCatId = s.nextCatId ∧
      ((s'.skills = s.skills ∧ s'.nextSkillId = s.nextSkillId) ∨
        (s'.skills = s.skills ++ [(s.nextSkillId, n)] ∧
          s'.nextSkillId = s.nextSkillId + 1 ∧
          s.skills.any (fun r => r.2 == n) = false)) ∧
      ∃ sid, (sid, n) ∈ s'.skills ∧ (j, sid) ∈ s'.jobs_skills ∧
        (s'.jobs_skills = s.jobs_skills ∨
          s'.jobs_skills = s.jobs_skills ++ [(j, sid)]) := by
  cases hl : lookupSkill s n with
  | some sid =>
    have hmem : (sid, n) ∈ s.skills := lookupSkill_mem hl
    cases he : s.jobs_skills.any (fun p => p == (j, sid)) with
    | true =>
      refine ⟨s, c + 2, ?_, rfl, rfl, rfl, rfl, rfl, Or.inl ⟨rfl, rfl⟩,
        sid, hmem, ?_, Or.inl rfl⟩
      · simp [linkSkill, exec, noFaults, selectSkillEff, hl,
          insertJobSkillEff, he]
      · obtain ⟨p, hp, hpe⟩ := List.any_eq_true.mp he
        have hpp : p = (j, sid) := by simpa using hpe
        rwa [hpp] at hp
    | false =>
      refine ⟨{ s with jobs_skills := s.jobs_skills ++ [(j, sid)] }, c + 2,
        ?_, rfl, rfl, rfl, rfl, rfl, Or.inl ⟨rfl, rfl⟩, sid, hmem, ?_,
        Or.inr rfl⟩
      · simp [linkSkill, exec, noFaults, selectSkillEff, hl,
          insertJobSkillEff, he]
      · exact List.mem_append_right _ (by simp)
  | none =>
    have hany : s.skills.any (fun r => r.2 == n) = false := by
      unfold lookupSkill at hl
      cases hf : s.skills.find? (fun r => r.2 == n) with
      | some r => rw [hf] at hl; cases hl
      | none =>
        rw [List.any_eq_false]
        intro x hx
        simpa using List.find?_eq_none.mp hf x hx
    cases he : s.jobs_skills.any (fun p => p == (j, s.nextSkillId)) with
    | true =>
      refine ⟨{ s with skills := s.skills ++ [(s.nextSkillId, n)],
                       nextSkillId := s.nextSkillId + 1 }, c + 3, ?_, rfl,
        rfl, rfl, rfl, rfl, Or.inr ⟨rfl, rfl, hany⟩, s.nextSkillId,
        List.mem_append_right _ (by simp), ?_, Or.inl rfl⟩
      · simp [linkSkill, exec, noFaults, selectSkillEff, hl, insertSkillEff,
          hany, insertJobSkillEff, he]
      · obtain ⟨p, hp, hpe⟩ := List.any_eq_true.mp he
        have hpp : p = (j, s.nextSkillId) := by simpa using hpe
        rwa [hpp] at hp
    | false =>
      refine ⟨{ s with skills := s.skills ++ [(s.nextSkillId, n)],
                       jobs_skills := s.jobs_skills ++ [(j, s.nextSkillId)],
                       nextSkillId := s.nextSkillId + 1 }, c + 3, ?_, rfl,
        rfl, rfl, rfl, rfl, Or.inr ⟨rfl, rfl, hany⟩, s.nextSkillId,
        List.mem_append_right _ (by simp),
        List.mem_append_right _ (by simp), Or.inr rfl⟩
      simp [linkSkill, exec, noFaults, selectSkillEff, hl, insertSkillEff,
        hany, insertJobSkillEff, he]

theorem linkSkills_noFaults_ok (j : Nat) (ns : List String) :
    ∀ (s : DBState) (c : Nat),
    ∃ s' c', linkSkills noFaults s c j ns = .ok s' c' () ∧
      s'.jobs = s.jobs ∧ s'.categories = s.categories ∧
      s'.jobs_categories = s.jobs_categories ∧
      s'.nextJobId = s.nextJobId ∧ s'.nextCatId = s.nextCatId ∧
      (∃ d, s'.skills = s.skills ++ d) ∧
      (∃ d, s'.jobs_skills = s.jobs_skills ++ d) ∧
      ((s.skills.map (fun r => r.2)).Nodup →
        (s'.skills.map (fun r => r.2)).Nodup) ∧
      (∀ n ∈ ns, ∃ sid, (sid, n) ∈ s'.skills ∧ (j, sid) ∈ s'.jobs_skills) := by
  induction ns with
  | nil =>
    intro s c
    exact ⟨s, c, rfl, rfl, rfl, rfl, rfl, rfl, ⟨[], by simp⟩, ⟨[], by simp⟩,
      fun h => h, by simp⟩
  | cons n rest ih =>
    intro s c
    obtain ⟨s₁, c₁, hstep, hjobs1, hcats1, hjc1, hnj1, hnc1, hsk1,
      sid, hsidmem, hedge, hjs1⟩ := linkSkill_noFaults_ok s c j n
    obtain ⟨s₂, c₂, hloop, hjobs2, hcats2, hjc2, hnj2, hnc2, ⟨d₁, hskd⟩,
      ⟨d₂, hjsd⟩, hnd, hmemrest⟩ := ih s₁ c₁
    refine ⟨s₂, c₂, ?_, by rw [hjobs2, hjobs1], by rw [hcats2, hcats1],
      by rw [hjc2, hjc1], by rw [hnj2, hnj1], by rw [hnc2, hnc1],
      ?_, ?_, ?_, ?_⟩
    · simp [linkSkills, hstep, hloop]
    · rcases hsk1 with ⟨h, _⟩ | ⟨h, _, _⟩
      · exact ⟨d₁, by rw [hskd, h]⟩
      · exact ⟨(s.nextSkillId, n) :: d₁, by rw [hskd, h]; simp⟩
    · rcases hjs1 with h | h
      · exact ⟨d₂, by rw [hjsd, h]⟩
      · exact ⟨(j, sid) :: d₂, by rw [hjsd, h]; simp⟩
    · intro hnod
      apply hnd
      rcases hsk1 with ⟨h, _⟩ | ⟨h, _, hany⟩
      · rwa [h]
      · rw [h, List.map_append]
        apply List.Nodup.append hnod (by simp)
        intro x hx hxs
        have hxn : x = n := by simpa using hxs
        subst hxn
        obtain ⟨r, hr, hrn⟩ := List.mem_map.mp hx
        exact (List.any_eq_false.mp hany r hr) (by simp [hrn])
    · intro m hm
      rcases List.mem_cons.mp hm with rfl | hm'
      · exact ⟨sid, by rw [hskd]; exact List.mem_append_left _ hsidmem,
          by rw [hjsd]; exact List.mem_append_left _ hedge⟩
      · exact hmemrest m hm'

theorem linkCats_noFaults_ok (j : Nat) (ct : List CatData) :
    ∀ (s : DBState) (c : Nat),
    ∃ s' c', linkCats noFaults s c j ct = .ok s' c' () ∧
      s'.jobs = s.jobs ∧ s'.skills = s.skills ∧
      s'.jobs_skills = s.jobs_skills ∧ s'.nextJobId = s.nextJobId ∧
      s'.nextSkillId = s.nextSkillId := by
  induction ct with
  | nil => intro s c; exact ⟨s, c, rfl, rfl, rfl, rfl, rfl, rfl⟩
  | cons cd rest ih =>
    intro s c
    have step : ∃ s₁ c₁, linkCat noFaults s c j cd = .ok s₁ c₁ () ∧
        s₁.jobs = s.jobs ∧ s₁.skills = s.skills ∧
        s₁.jobs_skills = s.jobs_skills ∧ s₁.nextJobId = s.nextJobId ∧
        s₁.nextSkillId = s.nextSkillId := by
      cases hl : lookupCat s cd with
      | some i =>
        obtain ⟨s₁, c₁, heq, h1, h2, h3, _, h5, h6, _, _⟩ :=
          linkCat_noFaults_found s c j i cd hl
        exact ⟨s₁, c₁, heq, h1, h2, h3, h5, h6⟩
      | none =>
        obtain ⟨s₁, c₁, heq, h1, h2, h3, _, h5, h6, _, _⟩ :=
          linkCat_noFaults_notFound s c j cd hl
        exact ⟨s₁, c₁, heq, h1, h2, h3, h5, h6⟩
    obtain ⟨s₁, c₁, hstep, hjobs1, hsk1, hjs1, hnj1, hns1⟩ := step
    obtain ⟨s₂, c₂, hloop, hjobs2, hsk2, hjs2, hnj2, hns2⟩ := ih s₁ c₁
    refine ⟨s₂, c₂, ?_, by rw [hjobs2, hjobs1], by rw [hsk2, hsk1],
      by rw [hjs2, hjs1], by rw [hnj2, hnj1], by rw [hns2, hns1]⟩
    simp [linkCats, hstep, hloop]

/-! ## Success specification of the whole ingestion -/

theorem add_job_ok_spec {s s' : DBState} {jd : JobDetails}
    {sk : List String} {ct : List CatData} {j : Nat}
    (h : add_job noFaults s jd sk ct = (s', some j)) :
    j = s.nextJobId ∧ s'.nextJobId = s.nextJobId + 1 ∧
    (∃ d, s'.skills = s.skills ++ d) ∧
    (∃ d, s'.jobs_skills = s.jobs_skills ++ d) ∧
    ((s.skills.map (fun r => r.2)).Nodup →
      (s'.skills.map (fun r => r.2)).Nodup) ∧
    (∀ n ∈ sk, ∃ sid, (sid, n) ∈ s'.skills ∧ (j, sid) ∈ s'.jobs_skills) := by
  cases hdup : s.jobs.any (fun r => r.2.job_url == jd.job_url) with
  | true =>
    rw [add_job_dup_url_none s jd sk ct hdup] at h
    exact absurd (congrArg Prod.snd h) (by simp)
  | false =>
    obtain ⟨s₂, c₂, hls, hjobs2, hcats2, hjc2, hnj2, hnc2, hsk2, hjs2, hnd2,
      hmem2⟩ := linkSkills_noFaults_ok s.nextJobId sk
        { s with jobs := s.jobs ++ [(s.nextJobId, jd)],
                 nextJobId := s.nextJobId + 1 } 1
    obtain ⟨s₃, c₃, hlc, hjobs3, hskills3, hjs3, hnj3, hns3⟩ :=
      linkCats_noFaults_ok s.nextJobId ct s₂ c₂
    have heval : add_job noFaults s jd sk ct = (s₃, some s.nextJobId) := by
      simp [add_job, add_jobBody, exec, noFaults, insertJobEff, hdup, hls,
        hlc]
    rw [heval] at h
    have hss : s₃ = s' := congrArg Prod.fst h
    have hj : j = s.nextJobId := by
      have := congrArg Prod.snd h
      simpa using this.symm
    subst hss
    refine ⟨hj, ?_, ?_, ?_, ?_, ?_⟩
    · rw [hnj3, hnj2]
    · obtain ⟨d, hd⟩ := hsk2
      exact ⟨d, by rw [hskills3, hd]⟩
    · obtain ⟨d, hd⟩ := hjs2
      exact ⟨d, by rw [hjs3, hd]⟩
    · intro hnod
      rw [hskills3]
      exact hnd2 hnod
    · intro n hn
      obtain ⟨sid, h1, h2⟩ := hmem2 n hn
      exact ⟨sid, by rw [hskills3]; exact h1, by rw [hjs3, hj]; exact h2⟩

/-! ## Claim C4 -/

theorem ids_eq_of_nodup_names {l : List (Nat × String)} {a b : Nat}
    {n : String} (hnod : (l.map (fun r => r.2)).Nodup)
    (ha : (a, n) ∈ l) (hb : (b, n) ∈ l) : a = b := by
  have := List.inj_on_of_nodup_map hnod ha hb rfl
  exact congrArg Prod.fst this

theorem filter_name_length_one {l : List (Nat × String)} {a : Nat}
    {n : String} (hnod : (l.map (fun r => r.2)).Nodup) (ha : (a, n) ∈ l) :
    (l.filter (fun r => r.2 == n)).length = 1 := by
  induction l with
  | nil => cases ha
  | cons x xs ih =>
    simp only [List.map_cons, List.nodup_cons] at hnod
    rcases List.mem_cons.mp ha with hax | hax
    · rw [← hax] at hnod ⊢
      rw [List.filter_cons_of_pos (by simp)]
      have hnil : xs.filter (fun r => r.2 == n) = [] := by
        rw [List.filter_eq_nil_iff]
        intro r hr
        intro hrn
        exact hnod.1 (List.mem_map.mpr ⟨r, hr, by simpa using hrn.symm⟩)
      simp [hnil]
    · have hxn : (x.2 == n) = false := by
        cases hxe : x.2 == n with
        | false => rfl
        | true =>
          exfalso
          apply hnod.1
          have : x.2 = n := by simpa using hxe
          rw [this]
          exact List.mem_map.mpr ⟨(a, n), hax, rfl⟩
      rw [List.filter_cons_of_neg (by simp [hxn])]
      exact ih hnod.2 hax

/-- C4: for every skill name processed during ingestion, an existing
`skills` row is reused (no new row) and an absent one is inserted exactly
once; consequently two successful ingestions of different jobs that both
list the same skill name leave exactly one `skills` row with that name and
two distinct `jobs_skills` edges pointing at it.  The hypothesis is the
`skills.name` uniqueness invariant the database enforces on the initial
state. -/
theorem skills_get_or_create_dedup
    {s s₁ s₂ : DBState} {jd₁ jd₂ : JobDetails} {sk₁ sk₂ : List String}
    {ct₁ ct₂ : List CatData} {j₁ j₂ : Nat} {n : String}
    (hnod : (s.skills.map (fun r => r.2)).Nodup)
    (hn₁ : n ∈ sk₁) (hn₂ : n ∈ sk₂)
    (h₁ : add_job noFaults s jd₁ sk₁ ct₁ = (s₁, some j₁))
    (h₂ : add_job noFaults s₁ jd₂ sk₂ ct₂ = (s₂, some j₂)) :
    (s₂.skills.filter (fun r => r.2 == n)).length = 1 ∧
    ∃ sid, (sid, n) ∈ s₂.skills ∧
      (j₁, sid) ∈ s₂.jobs_skills ∧ (j₂, sid) ∈ s₂.jobs_skills ∧
      (j₁, sid) ≠ (j₂, sid) := by
  obtain ⟨hj₁, hnext₁, _, _, hnd₁, hpres₁⟩ := add_job_ok_spec h₁
  obtain ⟨hj₂, hnext₂, ⟨d, hsk⟩, ⟨d', hjs⟩, hnd₂, hpres₂⟩ := add_job_ok_spec h₂
  obtain ⟨sidA, hmemA, hedgeA⟩ := hpres₁ n hn₁
  obtain ⟨sidB, hmemB, hedgeB⟩ := hpres₂ n hn₂
  have hnods₂ : (s₂.skills.map (fun r => r.2)).Nodup := hnd₂ (hnd₁ hnod)
  have hmemA' : (sidA, n) ∈ s₂.skills := by
    rw [hsk]; exact List.mem_append_left _ hmemA
  have hedgeA' : (j₁, sidA) ∈ s₂.jobs_skills := by
    rw [hjs]; exact List.mem_append_left _ hedgeA
  have hsid : sidA = sidB := ids_eq_of_nodup_names hnods₂ hmemA' hmemB
  have hjj : j₁ ≠ j₂ := by
    rw [hj₁, hj₂, hnext₁]
    omega
  exact ⟨filter_name_length_one hnods₂ hmemB, sidB, hmemB,
    hsid ▸ hedgeA', hedgeB, by simp [hjj]⟩

/-- Witness for `skills_get_or_create_dedup`: ingesting `exJob1` and then
`exJob2`, both with skill list `["Python"]`, into the empty database. -/
theorem skills_get_or_create_dedup_witness :
    ((DBState.mk [(0, exJob1), (1, exJob2)] [(0, "Python")] []
        [(0, 0), (1, 0)] [] 2 1 0).skills.filter
          (fun r => r.2 == "Python")).length = 1 ∧
    ∃ sid, (sid, "Python") ∈ (DBState.mk [(0, exJob1), (1, exJob2)]
        [(0, "Python")] [] [(0, 0), (1, 0)] [] 2 1 0).skills ∧
      (0, sid) ∈ (DBState.mk [(0, exJob1), (1, exJob2)] [(0, "Python")] []
        [(0, 0), (1, 0)] [] 2 1 0).jobs_skills ∧
      (1, sid) ∈ (DBState.mk [(0, exJob1), (1, exJob2)] [(0, "Python")] []
        [(0, 0), (1, 0)] [] 2 1 0).jobs_skills ∧
      (0, sid) ≠ (1, sid) :=
  @skills_get_or_create_dedup emptyDB
    (DBState.mk [(0, exJob1)] [(0, "Python")] [] [(0, 0)] [] 1 1 0)
    (DBState.mk [(0, exJob1), (1, exJob2)] [(0, "Python")] []
      [(0, 0), (1, 0)] [] 2 1 0)
    exJob1 exJob2 ["Python"] ["Python"] [] [] 0 1 "Python"
    (by decide) (by decide) (by decide) (by decide) (by decide)

/-! ## Lemmas about the reconciliation loops -/

theorem addLoop_eq (t : String) (live : List LiveCol) :
    ∀ model : List DeclaredCol,
      addLoop t live model =
        (model.filter (fun d => (liveLookup live d.name).isNone)).map
          (SchemaOp.addColumn t) := by
  intro model
  induction model with
  | nil => rfl
  | cons d rest ih =>
    cases h : (liveLookup live d.name).isNone with
    | true => simp [addLoop, h, List.filter_cons, ih]
    | false => simp [addLoop, h, List.filter_cons, ih]

theorem modifyLoop_eq (t : String) (live : List LiveCol) :
    ∀ model : List DeclaredCol,
      modifyLoop t live model =
        (model.filter (needsModify live)).map (SchemaOp.modifyColumn t) := by
  intro model
  induction model with
  | nil => rfl
  | cons d rest ih =>
    cases hl : liveLookup live d.name with
    | none =>
      have hm : needsModify live d = false := by simp [needsModify, hl]
      simp [modifyLoop, hl, List.filter_cons, hm, ih]
    | some l =>
      cases hc : colDiffers d l with
      | true =>
        have hm : needsModify live d = true := by simp [needsModify, hl, hc]
        simp [modifyLoop, hl, hc, List.filter_cons, hm, ih]
      | false =>
        have hm : needsModify live d = false := by simp [needsModify, hl, hc]
        simp [modifyLoop, hl, hc, List.filter_cons, hm, ih]

theorem applyOps_append (live : List LiveCol) (o₁ o₂ : List SchemaOp) :
    applyOps live (o₁ ++ o₂) = applyOps (applyOps live o₁) o₂ :=
  List.foldl_append _ _ _ _

theorem applyOps_addColumns (t : String) :
    ∀ (ds : List DeclaredCol) (live : List LiveCol),
      applyOps live (ds.map (SchemaOp.addColumn t)) = live ++ ds.map toLive := by
  intro ds
  induction ds with
  | nil => intro live; simp [applyOps]
  | cons d rest ih =>
    intro live
    show applyOps (applyOp live (.addColumn t d)) (rest.map (SchemaOp.addColumn t)) =
      live ++ (d :: rest).map toLive
    rw [ih]
    simp [applyOp]

theorem applyOps_modifyColumns (t : String) :
    ∀ (ds : List DeclaredCol) (live : List LiveCol),
      applyOps live (ds.map (SchemaOp.modifyColumn t)) =
        live.map (rewriteCols ds) := by
  intro ds
  induction ds with
  | nil =>
    intro live
    simp only [List.map_nil]
    show live = live.map (rewriteCols [])
    rw [show rewriteCols [] = fun l => l from rfl, List.map_id']
  | cons d rest ih =>
    intro live
    show applyOps (applyOp live (.modifyColumn t d)) (rest.map (SchemaOp.modifyColumn t)) =
      live.map (rewriteCols (d :: rest))
    rw [ih, applyOp, List.map_map]
    rfl

theorem rewriteCols_name (ds : List DeclaredCol) :
    ∀ l : LiveCol, (rewriteCols ds l).name = l.name := by
  induction ds with
  | nil => intro l; rfl
  | cons d rest ih =>
    intro l
    show (rewriteCols rest (if l.name == d.name then toLive d else l)).name = l.name
    rw [ih]
    cases h : l.name == d.name with
    | true =>
      rw [if_pos rfl]
      exact (eq_of_beq h).symm
    | false =>
      rw [if_neg (by simp)]

theorem rewriteCols_fix (ds : List DeclaredCol) :
    ∀ l : LiveCol, (∀ d ∈ ds, l.name ≠ d.name) → rewriteCols ds l = l := by
  induction ds with
  | nil => intro l _; rfl
  | cons d rest ih =>
    intro l h
    show rewriteCols rest (if l.name == d.name then toLive d else l) = l
    rw [if_neg (fun hc => h d (List.mem_cons_self d rest) (eq_of_beq hc))]
    exact ih l (fun d' hd' => h d' (List.mem_cons_of_mem d hd'))

theorem rewriteCols_hit (ds : List DeclaredCol) :
    ∀ (d : DeclaredCol) (l : LiveCol),
      (ds.map (fun x => x.name)).Nodup → d ∈ ds → l.name = d.name →
      rewriteCols ds l = toLive d := by
  induction ds with
  | nil => intro d l _ hd _; cases hd
  | cons d₀ rest ih =>
    intro d l hnod hd hname
    simp only [List.map_cons, List.nodup_cons] at hnod
    rcases List.mem_cons.mp hd with rfl | hd'
    · show rewriteCols rest (if l.name == d.name then toLive d else l) = toLive d
      rw [if_pos (by simp [hname])]
      apply rewriteCols_fix
      intro d' hd'
      intro hcon
      exact hnod.1 (by
        rw [show d.name = d'.name from hcon]
        exact List.mem_map.mpr ⟨d', hd', rfl⟩)
    · show rewriteCols rest (if l.name == d₀.name then toLive d₀ else l) = toLive d
      rw [if_neg ?hne]
      · exact ih d l hnod.2 hd' hname
      case hne =>
        intro hc
        apply hnod.1
        rw [show d₀.name = d.name from by rw [← eq_of_beq hc, hname]]
        exact List.mem_map.mpr ⟨d, hd', rfl⟩

theorem liveLookup_map_namePres (g : LiveCol → LiveCol)
    (hg : ∀ x, (g x).name = x.name) (nm : String) :
    ∀ live : List LiveCol,
      liveLookup (live.map g) nm = (liveLookup live nm).map g := by
  intro live
  induction live with
  | nil => rfl
  | cons x rest ih =>
    show liveLookup (g x :: rest.map g) nm = _
    simp only [liveLookup, List.find?]
    rw [hg x]
    cases h : x.name == nm with
    | true => rfl
    | false => simpa [liveLookup] using ih

theorem liveLookup_append (a b : List LiveCol) (nm : String) :
    liveLookup (a ++ b) nm =
      (match liveLookup a nm with
       | some l => some l
       | none => liveLookup b nm) := by
  induction a with
  | nil => simp [liveLookup]
  | cons x rest ih =>
    simp only [List.cons_append, liveLookup, List.find?]
    cases h : x.name == nm with
    | true => rfl
    | false => simpa [liveLookup] using ih

theorem liveLookup_filter_map_toLive (P : DeclaredCol → Bool) :
    ∀ (model : List DeclaredCol) (d : DeclaredCol),
      (model.map (fun x => x.name)).Nodup → d ∈ model → P d = true →
      liveLookup ((model.filter P).map toLive) d.name = some (toLive d) := by
  intro model
  induction model with
  | nil => intro d _ hd _; cases hd
  | cons x rest ih =>
    intro d hnod hd hP
    simp only [List.map_cons, List.nodup_cons] at hnod
    rcases List.mem_cons.mp hd with rfl | hd'
    · rw [List.filter_cons_of_pos hP]
      simp [liveLookup, List.find?, toLive]
    · have hne : (x.name == d.name) = false := by
        cases hb : x.name == d.name with
        | false => rfl
        | true =>
          exfalso
          apply hnod.1
          rw [eq_of_beq hb]
          exact List.mem_map.mpr ⟨d, hd', rfl⟩
      cases hPx : P x with
      | true =>
        rw [List.filter_cons_of_pos hPx]
        show liveLookup (toLive x :: (rest.filter P).map toLive) d.name = _
        simp only [liveLookup, List.find?, toLive]
        rw [show ((⟨x.name, x.compiledType, x.nullable⟩ : LiveCol).name == d.name) = false
          from hne]
        exact ih d hnod.2 hd' hP
      | false =>
        rw [List.filter_cons_of_neg (by simp [hPx])]
        exact ih d hnod.2 hd' hP

theorem syncTable_applyOps_converges (t : String) (model : List DeclaredCol)
    (live : List LiveCol) (hnod : (model.map (fun x => x.name)).Nodup) :
    ∀ d ∈ model, ∃ l',
      liveLookup (applyOps live (syncTable t model live)) d.name = some l' ∧
      colDiffers d l' = false := by
  intro d hd
  have hMnod : ((model.filter (needsModify live)).map (fun x => x.name)).Nodup :=
    ((List.filter_sublist model).map (fun x => x.name)).nodup hnod
  have happ : applyOps live (syncTable t model live) =
      live.map (rewriteCols (model.filter (needsModify live))) ++
      ((model.filter (fun x => (liveLookup live x.name).isNone)).map toLive).map
        (rewriteCols (model.filter (needsModify live))) := by
    rw [syncTable, addLoop_eq, modifyLoop_eq, applyOps_append,
      applyOps_addColumns, applyOps_modifyColumns, List.map_append]
  rw [happ, liveLookup_append, liveLookup_map_namePres _
    (rewriteCols_name (model.filter (needsModify live))) d.name live]
  cases hl : liveLookup live d.name with
  | some l =>
    have hl' : live.find? (fun x => x.name == d.name) = some l := hl
    have hname : l.name = d.name := eq_of_beq (by simpa using List.find?_some hl')
    cases hm : needsModify live d with
    | true =>
      have hdM : d ∈ model.filter (needsModify live) :=
        List.mem_filter.mpr ⟨hd, hm⟩
      refine ⟨toLive d, ?_, by simp [colDiffers, toLive]⟩
      show some (rewriteCols (List.filter (needsModify live) model) l) =
        some (toLive d)
      rw [rewriteCols_hit _ d l hMnod hdM hname]
    | false =>
      have hc : colDiffers d l = false := by
        have hm' := hm
        simp only [needsModify, hl] at hm'
        exact hm'
      refine ⟨l, ?_, hc⟩
      show some (rewriteCols (List.filter (needsModify live) model) l) = some l
      rw [rewriteCols_fix _ l ?hfix]
      case hfix =>
        intro d' hd'
        intro hcon
        have hd'm := List.mem_filter.mp hd'
        have hdd : d' = d := List.inj_on_of_nodup_map hnod hd'm.1 hd
          (by rw [← hcon, hname])
        have h2 : needsModify live d = true := hdd ▸ hd'm.2
        rw [hm] at h2
        cases h2
  | none =>
    have hfixA : ∀ a ∈ (model.filter
        (fun x => (liveLookup live x.name).isNone)).map toLive,
        rewriteCols (model.filter (needsModify live)) a = a := by
      intro a ha
      obtain ⟨d'', hd'', rfl⟩ := List.mem_map.mp ha
      apply rewriteCols_fix
      intro d' hd'
      intro hcon
      have hd'm := List.mem_filter.mp hd'
      have hd''m := List.mem_filter.mp hd''
      have hnm := hd'm.2
      simp only [needsModify] at hnm
      cases hl' : liveLookup live d'.name with
      | none => rw [hl'] at hnm; simp at hnm
      | some l' =>
        have h0 : (liveLookup live d''.name).isNone = true := hd''m.2
        have hdn : d''.name = d'.name := hcon
        rw [hdn, hl'] at h0
        simp at h0
    rw [List.map_congr_left hfixA, List.map_id']
    rw [liveLookup_filter_map_toLive _ model d hnod hd (by rw [hl]; rfl)]
    exact ⟨toLive d, rfl, by simp [colDiffers, toLive]⟩

theorem syncTable_eq_nil_of_agree (t : String) (model : List DeclaredCol)
    (live : List LiveCol)
    (h : ∀ d ∈ model, ∃ l, liveLookup live d.name = some l ∧
      colDiffers d l = false) :
    syncTable t model live = [] := by
  rw [syncTable, addLoop_eq, modifyLoop_eq]
  have h1 : model.filter (fun d => (liveLookup live d.name).isNone) = [] := by
    rw [List.filter_eq_nil_iff]
    intro d hd
    obtain ⟨l, hl, _⟩ := h d hd
    simp [hl]
  have h2 : model.filter (needsModify live) = [] := by
    rw [List.filter_eq_nil_iff]
    intro d hd
    obtain ⟨l, hl, hc⟩ := h d hd
    simp [needsModify, hl, hc]
  rw [h1, h2]
  rfl

theorem applyOps_preserves_names (ops : List SchemaOp) :
    ∀ (live : List LiveCol) (l : LiveCol), l ∈ live →
      ∃ l', l' ∈ applyOps live ops ∧ l'.name = l.name := by
  induction ops with
  | nil => exact fun live l hl => ⟨l, hl, rfl⟩
  | cons op rest ih =>
    intro live l hl
    have step : ∃ l₁, l₁ ∈ applyOp live op ∧ l₁.name = l.name := by
      cases op with
      | addColumn t d => exact ⟨l, List.mem_append_left _ hl, rfl⟩
      | modifyColumn t d =>
        refine ⟨if l.name == d.name then toLive d else l,
          List.mem_map.mpr ⟨l, hl, rfl⟩, ?_⟩
        cases h : l.name == d.name with
        | true =>
          rw [if_pos rfl]
          exact (eq_of_beq h).symm
        | false =>
          rw [if_neg (by simp)]
    obtain ⟨l₁, h₁, hn⟩ := step
    obtain ⟨l', h', hn'⟩ := ih (applyOp live op) l₁ h₁
    exact ⟨l', h', by rw [hn', hn]⟩

/-! ## Claim C6 -/

/-- C6, counterexample.  The claim says one pass executes exactly one
`MODIFY COLUMN` per column present in both whose compiled type string or
nullability differs from the live one.  The code (`init_db.py` lines
191-194) uppercases both strings before comparing, so a column whose live
type string differs from the compiled declared type only in letter case —
here `varchar(200)` against `VARCHAR(200)`, with equal nullability —
produces zero statements even though the compiled type string differs from
the live one. -/
theorem case_only_difference_no_modify :
    syncTable "jobs" [caseDeclared] [caseLive] = [] ∧
    caseDeclared.compiledType ≠ caseLive.typeStr ∧
    caseDeclared.name = caseLive.name ∧
    caseDeclared.nullable = caseLive.nullable := by
  decide

/-- C6 as amended: one reconciliation pass per table executes the
`ADD COLUMN` statements for exactly the declared columns absent from the
live columns, in declaration order, followed by the `MODIFY COLUMN`
statements for exactly the columns present in both whose compiled type
string differs from the live one after uppercasing both, or whose
nullability differs, in declaration order; each such column yields exactly
one statement, columns present live but absent from the declared model
yield no statement, and applying the emitted statements never removes a
live column. -/
theorem reconciliation_ops_characterized (t : String)
    (model : List DeclaredCol) (live : List LiveCol)
    (hnod : (model.map (fun x => x.name)).Nodup) :
    syncTable t model live =
      (model.filter (fun d => (liveLookup live d.name).isNone)).map
        (SchemaOp.addColumn t) ++
      (model.filter (needsModify live)).map (SchemaOp.modifyColumn t) ∧
    (∀ op ∈ syncTable t model live,
      op.col.name ∈ model.map (fun x => x.name)) ∧
    (∀ d ∈ model, (liveLookup live d.name).isNone = true →
      (syncTable t model live).count (SchemaOp.addColumn t d) = 1) ∧
    (∀ d ∈ model, needsModify live d = true →
      (syncTable t model live).count (SchemaOp.modifyColumn t d) = 1) ∧
    (∀ l ∈ live, ∃ l', l' ∈ applyOps live (syncTable t model live) ∧
      l'.name = l.name) := by
  have hchar : syncTable t model live =
      (model.filter (fun d => (liveLookup live d.name).isNone)).map
        (SchemaOp.addColumn t) ++
      (model.filter (needsModify live)).map (SchemaOp.modifyColumn t) := by
    rw [syncTable, addLoop_eq, modifyLoop_eq]
  have hmnodup : model.Nodup := List.Nodup.of_map _ hnod
  refine ⟨hchar, ?_, ?_, ?_, ?_⟩
  · intro op hop
    rw [hchar] at hop
    rcases List.mem_append.mp hop with hop | hop
    · obtain ⟨d', hd', rfl⟩ := List.mem_map.mp hop
      exact List.mem_map.mpr ⟨d', (List.mem_filter.mp hd').1, rfl⟩
    · obtain ⟨d', hd', rfl⟩ := List.mem_map.mp hop
      exact List.mem_map.mpr ⟨d', (List.mem_filter.mp hd').1, rfl⟩
  · intro d hd hnone
    rw [hchar, List.count_append]
    have hinj : Function.Injective (SchemaOp.addColumn t) := by
      intro a b h
      injection h with _ h2
    have h1 : ((model.filter (fun d => (liveLookup live d.name).isNone)).map
        (SchemaOp.addColumn t)).count (SchemaOp.addColumn t d) =
        (model.filter (fun d => (liveLookup live d.name).isNone)).count d :=
      List.count_map_of_injective _ _ hinj _
    have h2 : ((model.filter (needsModify live)).map
        (SchemaOp.modifyColumn t)).count (SchemaOp.addColumn t d) = 0 := by
      apply List.count_eq_zero_of_not_mem
      intro hmem
      obtain ⟨d', _, he⟩ := List.mem_map.mp hmem
      cases he
    rw [h1, h2, List.count_eq_one_of_mem (hmnodup.filter _)
      (List.mem_filter.mpr ⟨hd, hnone⟩)]
  · intro d hd hmod
    rw [hchar, List.count_append]
    have hinj : Function.Injective (SchemaOp.modifyColumn t) := by
      intro a b h
      injection h with _ h2
    have h1 : ((model.filter (fun d => (liveLookup live d.name).isNone)).map
        (SchemaOp.addColumn t)).count (SchemaOp.modifyColumn t d) = 0 := by
      apply List.count_eq_zero_of_not_mem
      intro hmem
      obtain ⟨d', _, he⟩ := List.mem_map.mp hmem
      cases he
    have h2 : ((model.filter (needsModify live)).map
        (SchemaOp.modifyColumn t)).count (SchemaOp.modifyColumn t d) =
        (model.filter (needsModify live)).count d :=
      List.count_map_of_injective _ _ hinj _
    rw [h1, h2, List.count_eq_one_of_mem (hmnodup.filter _)
      (List.mem_filter.mpr ⟨hd, hmod⟩)]
  · intro l hl
    exact applyOps_preserves_names (syncTable t model live) live l hl

/-- Witness for `reconciliation_ops_characterized`: the statements emitted
for the declared `jobs` table against a live table holding only `id` and a
lowercase-typed `job_title`. -/
theorem reconciliation_ops_characterized_witness :
    syncTable "jobs" jobsColumns liveJobsShort =
      (jobsColumns.filter
        (fun d => (liveLookup liveJobsShort d.name).isNone)).map
        (SchemaOp.addColumn "jobs") ++
      (jobsColumns.filter (needsModify liveJobsShort)).map
        (SchemaOp.modifyColumn "jobs") :=
  (reconciliation_ops_characterized "jobs" jobsColumns liveJobsShort
    (by decide)).1

/-! ## Claim C7 -/

/-- C7: reconciliation is idempotent.  If every declared column is live
with an equal canonical type string and nullability, one pass executes zero
ALTER statements; and after applying the statements of one pass (each added
or modified column converging to its declared definition), a second pass
executes zero statements. -/
theorem reconciliation_idempotent (t : String) (model : List DeclaredCol)
    (live : List LiveCol) (hnod : (model.map (fun x => x.name)).Nodup) :
    ((∀ d ∈ model, ∃ l, liveLookup live d.name = some l ∧
        l.typeStr = d.compiledType ∧ l.nullable = d.nullable) →
      syncTable t model live = []) ∧
    syncTable t model (applyOps live (syncTable t model live)) = [] := by
  constructor
  · intro h
    apply syncTable_eq_nil_of_agree
    intro d hd
    obtain ⟨l, hl, ht, hn⟩ := h d hd
    exact ⟨l, hl, by simp [colDiffers, ht, hn]⟩
  · exact syncTable_eq_nil_of_agree t model _
      (syncTable_applyOps_converges t model live hnod)

/-- Witness for `reconciliation_idempotent`: the second pass over the
declared `jobs` table is empty after the first pass is applied to a live
table holding only `id` and a lowercase-typed `job_title`. -/
theorem reconciliation_idempotent_witness :
    syncTable "jobs" jobsColumns
      (applyOps liveJobsShort (syncTable "jobs" jobsColumns liveJobsShort)) =
      [] :=
  (reconciliation_idempotent "jobs" jobsColumns liveJobsShort (by decide)).2

/-! ## Claim C10 -/

/-- C10: the type comparison of schema reconciliation uppercases both the
live type string and the compiled declared type string before testing
equality, so a column whose live type string differs from the compiled
declared type only in letter case (with matching nullability) gets no
`MODIFY COLUMN` statement. -/
theorem modify_not_emitted_on_case_difference (t : String)
    (model : List DeclaredCol) (live : List LiveCol) (d : DeclaredCol)
    (l : LiveCol) (hlk : liveLookup live d.name = some l)
    (htype : strUpper l.typeStr = strUpper d.compiledType)
    (hnull : l.nullable = d.nullable) :
    SchemaOp.modifyColumn t d ∉ syncTable t model live := by
  intro hmem
  rw [syncTable] at hmem
  rcases List.mem_append.mp hmem with hmem | hmem
  · rw [addLoop_eq] at hmem
    obtain ⟨d', _, he⟩ := List.mem_map.mp hmem
    cases he
  · rw [modifyLoop_eq] at hmem
    obtain ⟨d', hd', he⟩ := List.mem_map.mp hmem
    have hdd : d' = d := by
      injection he with _ h2
    subst hdd
    have hneed := (List.mem_filter.mp hd').2
    simp only [needsModify, hlk] at hneed
    simp [colDiffers, htype, hnull] at hneed

/-- Witness for `modify_not_emitted_on_case_difference`: `job_title`
declared as `VARCHAR(200)` against a live `varchar(200)` emits no
`MODIFY COLUMN`. -/
theorem modify_not_emitted_on_case_difference_witness :
    SchemaOp.modifyColumn "jobs" caseDeclared ∉
      syncTable "jobs" [caseDeclared] [caseLive] :=
  modify_not_emitted_on_case_difference "jobs" [caseDeclared] [caseLive]
    caseDeclared caseLive (by decide) (by decide) (by decide)

/-! ## Claim C8 -/

theorem runOps_faultAt (e : DbErr) :
    ∀ (ops : List SchemaOp) (c k : Nat) (h : k < ops.length),
      runOps (faultAt (c + k) e) c ops =
        (ops.take k, some (ops.get ⟨k, h⟩)) := by
  intro ops
  induction ops with
  | nil =>
    intro c k h
    cases h
  | cons op rest ih =>
    intro c k h
    cases k with
    | zero =>
      simp [runOps, faultAt]
    | succ k' =>
      have hshift : c + (k' + 1) = (c + 1) + k' := by omega
      show runOps (faultAt (c + (k' + 1)) e) c (op :: rest) = _
      rw [runOps, hshift]
      have hne' : ((faultAt ((c + 1) + k') e) c) = none := by
        have hb : (c == (c + 1) + k') = false := by
          rw [beq_eq_false_iff_ne]
          omega
        simp [faultAt, hb]
      rw [hne', ih (c + 1) k' (Nat.lt_of_succ_lt_succ h)]
      rfl

/-- C8, counterexample.  The claim says a failure while applying one
table's schema change leaves reconciliation of the other tables running and
lets no exception escape.  `_sync_schema` wraps the loop over all tables in
one `try` block (`init_db.py` lines 167-218) and re-raises at line 218:
when the single statement of table `t1` fails, the statement of the
unrelated table `t2` is never executed (the executed list is empty although
`t2`'s statement was pending) and the outcome is a raised exception. -/
theorem sync_schema_failure_not_isolated :
    syncSchemaRun (faultAt 0 DbErr.other) [exT1, exT2] =
      .raised [] (SchemaOp.addColumn "t1" ⟨"a", "INTEGER", true⟩) ∧
    SchemaOp.addColumn "t2" ⟨"b", "INTEGER", true⟩ ∈ allOps [exT1, exT2] := by
  decide

/-- C8 as amended: a failure while executing any reconciliation statement
aborts the whole run — the statements before the failing one are the only
ones executed, every later statement (including those of unrelated tables)
is skipped, the error is logged once for the whole run, and the exception
is re-raised out of `_sync_schema` (`init_db.py` line 218). -/
theorem sync_schema_fault_aborts_run (ts : List TableSync) (k : Nat)
    (e : DbErr) (h : k < (allOps ts).length) :
    syncSchemaRun (faultAt k e) ts =
      .raised ((allOps ts).take k) ((allOps ts).get ⟨k, h⟩) := by
  unfold syncSchemaRun
  have hr := runOps_faultAt e (allOps ts) 0 k h
  rw [Nat.zero_add] at hr
  rw [hr]

/-- Witness for `sync_schema_fault_aborts_run`: the fault at statement
index 1 executes only `t1`'s statement and raises on `t2`'s. -/
theorem sync_schema_fault_aborts_run_witness :
    syncSchemaRun (faultAt 1 DbErr.other) [exT1, exT2] =
      .raised ((allOps [exT1, exT2]).take 1)
        ((allOps [exT1, exT2]).get ⟨1, by decide⟩) :=
  sync_schema_fault_aborts_run [exT1, exT2] 1 DbErr.other (by decide)

end DBModel


